import Mathlib

/-!
Shallow embedding of the cause-list acquisition pipeline
(`causelist/captcha.py`, `causelist/client.py`, `causelist/parser.py`,
`causelist/config.py`).

Modelling decisions:
* Python strings are Lean `String`, with the Python operations implemented
  over the character list (`String.toList` / `String.mk`) so that every
  definition evaluates by kernel reduction: `str.strip()` is `strTrim`
  (both trim surrounding whitespace), `str.lstrip("/")` drops leading `'/'`
  characters, `str.replace(a, "")` is `strRemoveAll` (both remove
  non-overlapping occurrences left to right in one pass),
  `"x" in s` is `strContains`, `str.startswith(p)` is `strStarts`,
  `str.lower()` is `strLower`, and `s[0].isdigit()` is `Char.isDigit`
  (the inputs are ASCII court-list tables).
* `collections.Counter(l).most_common(1)[0][0]` returns the most frequent
  element of `l`; `Counter` preserves first-insertion key order and Python's
  sort is stable, so ties go to the first-seen element.  Both it and Python's
  `min(l, key=k)` (first minimum wins) are modelled by `firstMinBy`, a fold
  that replaces the running best only on a strictly better key.
* Network effects are modelled by environments: `SolveEnv` supplies the two
  recognition results and the server's verdict for each attempt (the claims
  assume every challenge fetch succeeds), `SearchEnv` supplies the captcha
  outcome, the search response body and the document fetch.
* The HTML layer (BeautifulSoup) is external to the repository; the parser is
  embedded from the table rows it extracts: a `Cell` carries the text that
  `get_text(strip=True)` returns together with the raw child-text groups
  delimited by `<br/>` tags that `_extract_title` / `_br_to_separator` walk.
-/

namespace CauseList

/-- `config.py`: `BASE_URL`. -/
def BASE_URL : String := "https://hcraj.nic.in"

/-- `config.py`: `MAX_CAPTCHA_RETRIES`. -/
def MAX_CAPTCHA_RETRIES : Nat := 10

/-- Whether `pat` is a prefix of `l`. -/
def listStarts : List Char → List Char → Bool
  | [], _ => true
  | _ :: _, [] => false
  | p :: ps, c :: cs => p == c && listStarts ps cs

/-- Whether `pat` occurs contiguously in `l`. -/
def listHas (pat : List Char) : List Char → Bool
  | [] => pat.isEmpty
  | c :: cs => listStarts pat (c :: cs) || listHas pat cs

/-- Remove every non-overlapping occurrence of `pat` from `l`, scanning left
to right in one pass and continuing after each removed occurrence
(`str.replace(pat, "")`).  `fuel` is instantiated with the list's length. -/
def removeFuel (pat : List Char) : Nat → List Char → List Char
  | _, [] => []
  | 0, l => l
  | fuel + 1, c :: cs =>
      if pat ≠ [] ∧ listStarts pat (c :: cs) = true then
        removeFuel pat fuel ((c :: cs).drop pat.length)
      else
        c :: removeFuel pat fuel cs

/-- Python `str.startswith(pat)`. -/
def strStarts (s pat : String) : Bool := listStarts pat.toList s.toList

/-- Python `pat in s`. -/
def strContains (s pat : String) : Bool := listHas pat.toList s.toList

/-- Python `s.replace(pat, "")`. -/
def strRemoveAll (s pat : String) : String :=
  String.mk (removeFuel pat.toList s.toList.length s.toList)

/-- Python `s.strip()`: drop surrounding whitespace. -/
def strTrim (s : String) : String :=
  String.mk (((s.toList.dropWhile Char.isWhitespace).reverse.dropWhile
    Char.isWhitespace).reverse)

/-- Python `s.lower()` (ASCII). -/
def strLower (s : String) : String := String.mk (s.toList.map Char.toLower)

/-- Python `s.lstrip("/")`. -/
def stripSlashes (s : String) : String :=
  String.mk (s.toList.dropWhile (fun c => c = '/'))

/-- One step of the running-minimum fold: replace the best seen so far only
when the new key is strictly smaller, so the first-seen optimum wins. -/
def minStep {α : Type} {β : Type} [LinearOrder β] (k : α → β) (acc : Option α) (c : α) :
    Option α :=
  match acc with
  | none => some c
  | some b => if k c < k b then some c else some b

/-- Python's `min(l, key=k)` / stable argmax patterns (first minimum wins on
ties). -/
def firstMinBy {α : Type} {β : Type} [LinearOrder β] (k : α → β) (cs : List α) : Option α :=
  cs.foldl (minStep k) none

/-- `abs(len(c) - 6)`. -/
def dist6 (c : String) : Nat := ((c.length : Int) - 6).natAbs

/-- Shared tail of `solve_audio_captcha` (captcha.py lines 172-187) and
`solve_image_captcha` (lines 253-267): filter candidates to length 6; if any
exist return the most frequent (`Counter.most_common`, first-seen ties),
else return the candidate whose length is closest to 6 (`min` with key
`abs(len-6)`, first-seen ties), else `None`. -/
def selectCandidate (cs : List String) : Option String :=
  let six := cs.filter (fun c => c.length = 6)
  if six.isEmpty then
    firstMinBy dist6 cs
  else
    firstMinBy (fun c => (0 : Int) - (six.count c : Int)) six

/-- `solve_and_verify` lines 298-312: per-attempt candidate list built from
the per-modality results.  Python truthiness of a returned string is
`s != ""`. -/
def attemptCandidates (audioResult imageResult : Option String) : List String :=
  match audioResult, imageResult with
  | some a, some v =>
      if a ≠ "" ∧ v ≠ "" ∧ a.length = 6 ∧ v.length = 6 ∧ a = v then
        [a]
      else
        (if a ≠ "" ∧ a.length = 6 then [a] else []) ++
        (if v ≠ "" ∧ v.length = 6 then [v] else [])
  | some a, none => if a ≠ "" ∧ a.length = 6 then [a] else []
  | none, some v => if v ≠ "" ∧ v.length = 6 then [v] else []
  | none, none => []

/-- The contribution of one modality's result to the candidate list when the
agreement case does not apply: its value when nonempty of length 6, nothing
otherwise. -/
def len6Part : Option String → List String
  | some x => if x ≠ "" ∧ x.length = 6 then [x] else []
  | none => []

/-- Boolean form of the "both modalities agree on a 6-digit code" condition
(captcha.py lines 302-304). -/
def bothAgree6 (audioResult imageResult : Option String) : Bool :=
  match audioResult, imageResult with
  | some a, some v =>
      decide (a ≠ "" ∧ v ≠ "" ∧ a.length = 6 ∧ v.length = 6 ∧ a = v)
  | _, _ => false

/-- Environment for `solve_and_verify`: per-attempt recognition results and
the server's verdict on each submitted code (every challenge fetch is assumed
to succeed, as in the claims). -/
structure SolveEnv where
  audio : Nat → Option String
  image : Nat → Option String
  verify : Nat → String → Bool

/-- Candidate list of attempt `i`. -/
def attemptCands (env : SolveEnv) (i : Nat) : List String :=
  attemptCandidates (env.audio i) (env.image i)

/-- The inner `for solver, solution in candidates` loop (captcha.py lines
328-335): submit candidates in order, return on the first accepted one.
Second component counts the submissions made. -/
def tryCands (env : SolveEnv) (i : Nat) : List String → Bool × Nat
  | [] => (false, 0)
  | c :: rest =>
      if env.verify i c then (true, 1)
      else
        let r := tryCands env i rest
        (r.1, r.2 + 1)

/-- The attempt loop of `solve_and_verify` (captcha.py lines 291-339),
starting at attempt index `i` with `fuel` attempts left.  Returns
(success, challenge fetches performed, submissions performed); each attempt
begins with exactly one challenge fetch. -/
def solveFrom (env : SolveEnv) : Nat → Nat → Bool × Nat × Nat
  | _, 0 => (false, 0, 0)
  | i, fuel + 1 =>
      let t := tryCands env i (attemptCands env i)
      if t.1 then (true, 1, t.2)
      else
        let r := solveFrom env (i + 1) fuel
        (r.1, r.2.1 + 1, r.2.2 + t.2)

/-- `solve_and_verify(session)`: success flag after at most
`MAX_CAPTCHA_RETRIES` attempts. -/
def solve_and_verify (env : SolveEnv) : Bool :=
  (solveFrom env 0 MAX_CAPTCHA_RETRIES).1

/-- Number of challenge fetches a full `solve_and_verify` run performs. -/
def solveFetches (env : SolveEnv) : Nat :=
  (solveFrom env 0 MAX_CAPTCHA_RETRIES).2.1

/-- Whether attempt `i` verifies one of its candidates. -/
def attemptSucceeds (env : SolveEnv) (i : Nat) : Bool :=
  (attemptCands env i).any (env.verify i)

/-- client.py lines 93-99: resolve the search-response body (already
stripped) to the document URL. -/
def resolveDocUrl (responseText : String) : String :=
  if strStarts responseText "http" then responseText
  else BASE_URL ++ "/cishcraj-jp/" ++ stripSlashes responseText

/-- Error taxonomy of `search_causelist`: captcha exhaustion
(`RuntimeError("Failed to solve captcha after maximum retries")`) is a
distinct error from transport failures (`requests` exceptions /
`raise_for_status`). -/
inductive SearchError where
  | captchaExhausted : SearchError
  | transport : SearchError
deriving DecidableEq

/-- Environment for `search_causelist`: whether `solve_and_verify`
succeeded, the search POST's response body, and the document fetch. -/
structure SearchEnv where
  captchaOk : Bool
  searchBody : String
  fetch : String → Except Unit String

/-- `CauseListClient.search_causelist` (client.py lines 56-104), network
effects supplied by `env`: captcha failure raises; a stripped body that is
empty / "No Record Found" / "NA" yields no result; otherwise the resolved
document URL is fetched and its content returned verbatim. -/
def search_causelist (env : SearchEnv) : Except SearchError (Option String) :=
  if env.captchaOk = false then
    Except.error SearchError.captchaExhausted
  else
    let t := strTrim env.searchBody
    if t = "" ∨ t = "No Record Found" ∨ t = "NA" then
      Except.ok none
    else
      match env.fetch (resolveDocUrl t) with
      | Except.ok content => Except.ok (some content)
      | Except.error _ => Except.error SearchError.transport

/-- parser.py `CaseEntry`. -/
structure CaseEntry where
  serial_no : String
  case_type_no : String
  title : String
  advocates : String
  court_no : String
  judge_name : String
  category : String
deriving DecidableEq, Repr

/-- A table cell as the parser sees it: `text` is BeautifulSoup's
`get_text(strip=True)`, `rawParts` are the child-text groups delimited by
`<br/>` tags (before stripping) that `_extract_title` / `_br_to_separator`
iterate over. -/
structure Cell where
  text : String
  rawParts : List String
deriving DecidableEq, Repr

/-- The stripped, nonempty `<br/>`-delimited parts of a cell (the `parts`
list built by both `_br_to_separator` and `_extract_title`). -/
def cellParts (c : Cell) : List String :=
  (c.rawParts.map strTrim).filter (fun p => p ≠ "")

/-- `_br_to_separator(cell, separator)` (parser.py lines 79-96). -/
def br_to_separator (c : Cell) (separator : String) : String :=
  String.intercalate separator (cellParts c)

/-- `_extract_title(cell)` (parser.py lines 99-117). -/
def _extract_title (c : Cell) : String :=
  match cellParts c with
  | [] => ""
  | [p] => p
  | p :: rest => p ++ " Vs " ++ String.intercalate " " rest

/-- Parser state threaded through the row loop of `parse_to_records`. -/
structure PState where
  court : String
  judge : String
  category : String
  records : List CaseEntry
deriving DecidableEq, Repr

/-- Initial parser state (parser.py lines 128-131). -/
def pInit : PState := { court := "", judge := "", category := "", records := [] }

/-- Row texts: `cell_texts = [c.get_text(strip=True) for c in cells]`. -/
def rowTexts (row : List Cell) : List String := row.map Cell.text

/-- `full_text = " ".join(cell_texts).strip()`. -/
def rowFull (row : List Cell) : String :=
  strTrim (String.intercalate " " (rowTexts row))

/-- `lower_text = full_text.lower()`. -/
def rowLower (row : List Cell) : String := strLower (rowFull row)

/-- `cell_texts[0][:1].isdigit()`: whether the first cell's first character
is a digit (false when the first cell is empty). -/
def firstCharDigit (s : String) : Bool :=
  match s.toList with
  | [] => false
  | c :: _ => c.isDigit

/-- The `CaseEntry` built by the data-row branch (parser.py lines 188-207). -/
def mkEntry (row : List Cell) (st : PState) : CaseEntry :=
  { serial_no := strTrim (strRemoveAll ((rowTexts row).headD "") "With")
    case_type_no := (rowTexts row).getD 1 ""
    title := _extract_title (row.getD 2 { text := "", rawParts := [] })
    advocates :=
      String.intercalate " | "
        (((row.drop 3).map (fun c => br_to_separator c ", ")).filter (fun p => p ≠ ""))
    court_no := st.court
    judge_name := st.judge
    category := st.category }

/-- One iteration of the row loop of `parse_to_records` (parser.py lines
135-208), rules evaluated in the source's order. -/
def parseStep (st : PState) (row : List Cell) : PState :=
  let cellTexts := rowTexts row
  if cellTexts = [] then st
  else
    let fullText := rowFull row
    let lowerText := rowLower row
    -- rule 1: blank or pagination rows
    if fullText = "" ∨ (strContains lowerText "page" ∧ strContains lowerText "of") then st
    -- rule 2: court header
    else if strContains lowerText "court no" ∨ strContains lowerText "court room" then
      { st with court := fullText, judge := "", category := "" }
    -- rule 3: judge row
    else if strContains lowerText "hon\x27ble" ∨ strContains lowerText "justice" then
      { st with judge := String.intercalate " | " (cellTexts.filter (fun t => t ≠ "")) }
    -- rule 4: known column-header row
    else if strContains lowerText "s.no" ∨ strContains lowerText "sr.no" ∨
            strContains lowerText "case type" ∨ strContains lowerText "name of advocate" then
      st
    -- rule 5: category header (at most 2 cells, first cell not digit-led)
    else if cellTexts.length ≤ 2 ∧ fullText ≠ "" ∧ firstCharDigit (cellTexts.headD "") = false then
      if strContains lowerText "high court" ∨ strContains lowerText "website" ∨
         strContains lowerText "causelist" then st
      else if strContains lowerText "webex" ∨ strContains lowerText "cisco" ∨
              strContains lowerText "note:" then st
      else { st with category := fullText }
    -- rules 6 and 7: rows with at least 3 cells
    else if cellTexts.length ≥ 3 then
      let sno := cellTexts.headD ""
      if sno = "" ∨ (firstCharDigit sno = false ∧ strContains (strLower sno) "with" = false) then
        -- rule 7: unclassified row reinterpreted as a category header
        if fullText ≠ "" ∧
           ¬(strContains lowerText "high court" ∨ strContains lowerText "website" ∨
             strContains lowerText "=" ∨ strContains lowerText "---") then
          { st with category := fullText }
        else st
      else
        -- rule 6: data row
        { st with records := st.records ++ [mkEntry row st] }
    else st

/-- `parse_to_records` over the flattened table rows. -/
def parse_to_records (rows : List (List Cell)) : List CaseEntry :=
  (rows.foldl parseStep pInit).records

/-- parser.py `CourtSection`; the insertion-ordered `categories` dict is an
association list. -/
structure CourtSection where
  court_no : String
  judge_name : String
  categories : List (String × List CaseEntry)
deriving DecidableEq, Repr

/-- `key = entry.court_no or "Unknown"`. -/
def sectionKey (e : CaseEntry) : String :=
  if e.court_no = "" then "Unknown" else e.court_no

/-- `cat = entry.category or "General"`. -/
def catName (e : CaseEntry) : String :=
  if e.category = "" then "General" else e.category

/-- Append `e` under category `c`, creating the category at the end of the
insertion-ordered dict when absent. -/
def addToCats (cats : List (String × List CaseEntry)) (c : String) (e : CaseEntry) :
    List (String × List CaseEntry) :=
  match cats with
  | [] => [(c, [e])]
  | (c0, l) :: rest =>
      if c0 = c then (c0, l ++ [e]) :: rest
      else (c0, l) :: addToCats rest c e

/-- Insert one entry into the keyed section list (`group_by_court`'s loop
body, parser.py lines 216-228): a new key appends a section built from this
entry's `court_no` / `judge_name`; an existing key only grows its
categories. -/
def addToSections (secs : List (String × CourtSection)) (e : CaseEntry) :
    List (String × CourtSection) :=
  match secs with
  | [] =>
      [(sectionKey e,
        { court_no := e.court_no, judge_name := e.judge_name,
          categories := [(catName e, [e])] })]
  | (k, s) :: rest =>
      if k = sectionKey e then
        (k, { s with categories := addToCats s.categories (catName e) e }) :: rest
      else (k, s) :: addToSections rest e

/-- Keyed form of `group_by_court` (the `OrderedDict` before `.values()`). -/
def gbcAux (records : List CaseEntry) : List (String × CourtSection) :=
  records.foldl addToSections []

/-- `group_by_court(records)` (parser.py lines 213-229). -/
def group_by_court (records : List CaseEntry) : List CourtSection :=
  (gbcAux records).map Prod.snd

/-- Append a key at the end unless already present (ordered-dict key
insertion). -/
def insertNew (acc : List String) (k : String) : List String :=
  if k ∈ acc then acc else acc ++ [k]

/-- First-occurrence list of keys (insertion order of an ordered dict). -/
def firstOccs (ks : List String) : List String :=
  ks.foldl insertNew []

/-- Entries stored under category `c` in an insertion-ordered dict (first
matching key wins, as in a dict lookup). -/
def catEntries : List (String × List CaseEntry) → String → List CaseEntry
  | [], _ => []
  | (c0, l) :: rest, c => if c0 = c then l else catEntries rest c

/-- Entries stored under section key `k`, category `c`. -/
def secEntries : List (String × CourtSection) → String → String → List CaseEntry
  | [], _, _ => []
  | (k0, s) :: rest, k, c => if k0 = k then catEntries s.categories c else secEntries rest k c

/-- Category names (in order) of the section keyed `k`. -/
def secCats : List (String × CourtSection) → String → List String
  | [], _ => []
  | (k0, s) :: rest, k => if k0 = k then s.categories.map Prod.fst else secCats rest k

/-- `court_no` and `judge_name` of the section keyed `k`. -/
def secMeta : List (String × CourtSection) → String → Option (String × String)
  | [], _ => none
  | (k0, s) :: rest, k =>
      if k0 = k then some (s.court_no, s.judge_name) else secMeta rest k

/-- Fixture entry with empty court and category. -/
def entryA : CaseEntry :=
  { serial_no := "1", case_type_no := "A", title := "T", advocates := ""
    court_no := "", judge_name := "J1", category := "" }

/-- Fixture entry in court "C1", category "Cat". -/
def entryB : CaseEntry :=
  { serial_no := "2", case_type_no := "B", title := "U", advocates := ""
    court_no := "C1", judge_name := "J2", category := "Cat" }

/-- Fixture: captcha passes, the search POST answers with a relative result
path, and every document fetch returns "DOC". -/
def searchEnvA : SearchEnv :=
  { captchaOk := true
    searchBody := " /causelist/output/123.html "
    fetch := fun _ => Except.ok "DOC" }

/-- Fixture: recognition fails on attempt 0, the acoustic track resolves
"123456" on attempt 1, and the server accepts every submission. -/
def solveEnvA : SolveEnv :=
  { audio := fun i => if i = 1 then some "123456" else none
    image := fun _ => none
    verify := fun _ _ => true }

/-! ## Helper lemmas -/

/-- The running-minimum fold started at `some b` returns the first minimizer
of `b :: cs`: everything before it is strictly larger, everything after it
at least as large. -/
theorem minFold_first {α : Type} {β : Type} [LinearOrder β] (k : α → β) :
    ∀ (cs : List α) (b : α),
      ∃ b1 l1 l2,
        cs.foldl (minStep k) (some b) = some b1 ∧
        b :: cs = l1 ++ b1 :: l2 ∧
        (∀ x ∈ l1, k b1 < k x) ∧
        (∀ x ∈ l2, k b1 ≤ k x) := by
  intro cs
  induction cs with
  | nil =>
      intro b
      exact ⟨b, [], [], rfl, rfl, by simp, by simp⟩
  | cons c rest ih =>
      intro b
      by_cases h : k c < k b
      · obtain ⟨b1, l1, l2, hfold, hdec, h1, h2⟩ := ih c
        refine ⟨b1, b :: l1, l2, ?_, ?_, ?_, h2⟩
        · simpa [minStep, h] using hfold
        · rw [List.cons_append]
          exact congrArg (List.cons b) hdec
        · intro x hx
          rcases List.mem_cons.mp hx with rfl | hx
          · have hb1c : k b1 ≤ k c := by
              have hc : c ∈ l1 ++ b1 :: l2 := by
                rw [← hdec]; exact List.mem_cons_self c rest
              rcases List.mem_append.mp hc with hc1 | hc2
              · exact le_of_lt (h1 c hc1)
              · rcases List.mem_cons.mp hc2 with rfl | hc3
                · exact le_rfl
                · exact h2 c hc3
            exact lt_of_le_of_lt hb1c h
          · exact h1 x hx
      · obtain ⟨b1, l1, l2, hfold, hdec, h1, h2⟩ := ih b
        have hstep : (c :: rest).foldl (minStep k) (some b) = rest.foldl (minStep k) (some b) := by
          simp [minStep, h]
        cases l1 with
        | nil =>
            have h' : b = b1 ∧ rest = l2 := by simpa using hdec
            refine ⟨b1, [], c :: l2, by rw [hstep]; exact hfold, by simp [h'.1, h'.2], by simp, ?_⟩
            intro x hx
            rcases List.mem_cons.mp hx with rfl | hx
            · rw [← h'.1]; exact le_of_not_lt h
            · exact h2 x hx
        | cons a l1' =>
            have h' : b = a ∧ rest = l1' ++ b1 :: l2 := by simpa using hdec
            have hb1b : k b1 < k b := by
              rw [h'.1]; exact h1 a (List.mem_cons_self a l1')
            refine ⟨b1, b :: c :: l1', l2, by rw [hstep]; exact hfold, by simp [h'.2], ?_, h2⟩
            intro x hx
            rcases List.mem_cons.mp hx with rfl | hx
            · exact hb1b
            · rcases List.mem_cons.mp hx with rfl | hx
              · exact lt_of_lt_of_le hb1b (le_of_not_lt h)
              · exact h1 x (List.mem_cons_of_mem a hx)

/-- `firstMinBy` on a nonempty list returns the first minimizer. -/
theorem firstMinBy_first {α : Type} {β : Type} [LinearOrder β] (k : α → β) (cs : List α)
    (h : cs ≠ []) :
    ∃ b l1 l2,
      firstMinBy k cs = some b ∧
      cs = l1 ++ b :: l2 ∧
      (∀ x ∈ l1, k b < k x) ∧
      (∀ x ∈ l2, k b ≤ k x) := by
  match cs, h with
  | c :: rest, _ =>
    obtain ⟨b, l1, l2, hf, hd, h1, h2⟩ := minFold_first k rest c
    exact ⟨b, l1, l2, by simpa [firstMinBy, minStep] using hf, hd, h1, h2⟩

/-- The inner submission loop returns whether some candidate is accepted and
the number of submissions made: up to the first accepted candidate, or all
of them when none is accepted. -/
theorem tryCands_eq (env : SolveEnv) (i : Nat) (cs : List String) :
    tryCands env i cs =
      (cs.any (env.verify i),
       if cs.any (env.verify i) then
         (cs.takeWhile (fun c => !env.verify i c)).length + 1
       else cs.length) := by
  induction cs with
  | nil => rfl
  | cons c rest ih =>
      by_cases h : env.verify i c
      · simp [tryCands, h]
      · simp only [tryCands, h, if_false, List.any_cons, Bool.false_or,
          List.takeWhile_cons, Bool.not_false, if_true, List.length_cons, ih]
        by_cases h2 : rest.any (env.verify i) <;> simp [h2]

/-- The attempt loop of `solveFrom`, characterized: it succeeds iff some
attempt within the budget succeeds; on exhaustion it fetches exactly `fuel`
challenges; on a first success at relative attempt `j` it fetches `j + 1`
challenges; and it never fetches more than `fuel` challenges. -/
theorem solveLoop_spec (env : SolveEnv) :
    ∀ (fuel i : Nat),
      ((solveFrom env i fuel).1 = true ↔
        ∃ j, j < fuel ∧ attemptSucceeds env (i + j) = true) ∧
      ((solveFrom env i fuel).1 = false → (solveFrom env i fuel).2.1 = fuel) ∧
      (∀ j, j < fuel → attemptSucceeds env (i + j) = true →
        (∀ m, m < j → attemptSucceeds env (i + m) = false) →
        (solveFrom env i fuel).2.1 = j + 1) ∧
      ((solveFrom env i fuel).2.1 ≤ fuel) := by
  intro fuel
  induction fuel with
  | zero =>
      intro i
      refine ⟨by simp [solveFrom], fun _ => rfl, ?_, Nat.le_refl 0⟩
      intro j hj
      exact absurd hj (Nat.not_lt_zero j)
  | succ fuel ih =>
      intro i
      by_cases hs : attemptSucceeds env i = true
      · have h1 : (tryCands env i (attemptCands env i)).1 = true := by
          rw [tryCands_eq]; exact hs
        have hsolve : solveFrom env i (fuel + 1) =
            (true, 1, (tryCands env i (attemptCands env i)).2) := by
          simp only [solveFrom]
          rw [if_pos h1]
        refine ⟨?_, ?_, ?_, ?_⟩
        · rw [hsolve]
          constructor
          · intro _
            exact ⟨0, Nat.succ_pos fuel, by simpa using hs⟩
          · intro _
            rfl
        · rw [hsolve]
          intro h
          exact absurd h (by simp)
        · intro j hj hsucc hmin
          rcases Nat.eq_zero_or_pos j with rfl | hpos
          · rw [hsolve]
          · have h0 := hmin 0 hpos
            rw [Nat.add_zero] at h0
            rw [h0] at hs
            exact absurd hs (by simp)
        · rw [hsolve]
          dsimp only
          omega
      · have hs' : attemptSucceeds env i = false := by
          simpa using hs
        have h1 : (tryCands env i (attemptCands env i)).1 = false := by
          rw [tryCands_eq]
          exact hs'
        have hsolve : solveFrom env i (fuel + 1) =
            ((solveFrom env (i + 1) fuel).1,
             (solveFrom env (i + 1) fuel).2.1 + 1,
             (solveFrom env (i + 1) fuel).2.2 + (tryCands env i (attemptCands env i)).2) := by
          simp only [solveFrom]
          rw [if_neg (by rw [h1]; exact Bool.false_ne_true)]
        obtain ⟨ia, ib, ic, id⟩ := ih (i + 1)
        refine ⟨?_, ?_, ?_, ?_⟩
        · rw [hsolve]
          dsimp only
          constructor
          · intro h
            obtain ⟨j, hj, hsj⟩ := ia.mp h
            refine ⟨j + 1, by omega, ?_⟩
            have harith : i + (j + 1) = (i + 1) + j := by omega
            rw [harith]
            exact hsj
          · rintro ⟨j, hj, hsj⟩
            rcases j with _ | j1
            · rw [Nat.add_zero] at hsj
              exact absurd hsj hs
            · apply ia.mpr
              refine ⟨j1, by omega, ?_⟩
              have harith : (i + 1) + j1 = i + (j1 + 1) := by omega
              rw [harith]
              exact hsj
        · rw [hsolve]
          dsimp only
          intro h
          have := ib h
          omega
        · intro j hj hsucc hmin
          rcases j with _ | j1
          · rw [Nat.add_zero] at hsucc
            exact absurd hsucc hs
          · rw [hsolve]
            dsimp only
            have hj1 : j1 < fuel := by omega
            have hsucc1 : attemptSucceeds env ((i + 1) + j1) = true := by
              have harith : (i + 1) + j1 = i + (j1 + 1) := by omega
              rw [harith]
              exact hsucc
            have hmin1 : ∀ m, m < j1 → attemptSucceeds env ((i + 1) + m) = false := by
              intro m hm
              have harith : (i + 1) + m = i + (m + 1) := by omega
              rw [harith]
              exact hmin (m + 1) (by omega)
            have := ic j1 hj1 hsucc1 hmin1
            omega
        · rw [hsolve]
          dsimp only
          omega

/-! ## Claim theorems -/

/-- C1: per attempt, if both modality results are present, of length 6 and
equal, exactly that value is submitted, first and alone; otherwise the
acoustic length-6 result comes first, then the visual length-6 result;
non-length-6 results are never submitted; and with no length-6 result the
attempt submits nothing and does not succeed. -/
theorem attemptCandidates_priority (a v : Option String) :
    (∀ x, a = some x → v = some x → x.length = 6 → attemptCandidates a v = [x]) ∧
    (bothAgree6 a v = false → attemptCandidates a v = len6Part a ++ len6Part v) ∧
    (∀ c ∈ attemptCandidates a v, c.length = 6) ∧
    (attemptCandidates a v = [] ↔
      (∀ x, a = some x → x.length ≠ 6) ∧ (∀ y, v = some y → y.length ≠ 6)) ∧
    (∀ (env : SolveEnv) (i : Nat), env.audio i = a → env.image i = v →
      attemptCandidates a v = [] →
      attemptSucceeds env i = false ∧ tryCands env i (attemptCands env i) = (false, 0)) := by
  refine ⟨?_, ?_, ?_, ?_, ?_⟩
  · rintro x rfl rfl hlen
    have hne : x ≠ "" := by
      intro hx
      rw [hx] at hlen
      simp at hlen
    simp only [attemptCandidates]
    rw [if_pos ⟨hne, hne, hlen, hlen, trivial⟩]
  · intro hB
    rcases a with _ | x <;> rcases v with _ | y
    · rfl
    · rfl
    · simp only [attemptCandidates, len6Part]
      rw [List.append_nil]
    · have hB' : ¬(x ≠ "" ∧ y ≠ "" ∧ x.length = 6 ∧ y.length = 6 ∧ x = y) := by
        simpa [bothAgree6] using hB
      simp only [attemptCandidates, len6Part]
      rw [if_neg hB']
  · intro c hc
    rcases a with _ | x <;> rcases v with _ | y
    · simp [attemptCandidates] at hc
    · by_cases hy : y ≠ "" ∧ y.length = 6
      · have heq : attemptCandidates none (some y) = [y] := by
          simp only [attemptCandidates]; rw [if_pos hy]
        rw [heq] at hc
        simp at hc
        subst hc
        exact hy.2
      · have heq : attemptCandidates none (some y) = [] := by
          simp only [attemptCandidates]; rw [if_neg hy]
        rw [heq] at hc
        simp at hc
    · by_cases hx : x ≠ "" ∧ x.length = 6
      · have heq : attemptCandidates (some x) none = [x] := by
          simp only [attemptCandidates]; rw [if_pos hx]
        rw [heq] at hc
        simp at hc
        subst hc
        exact hx.2
      · have heq : attemptCandidates (some x) none = [] := by
          simp only [attemptCandidates]; rw [if_neg hx]
        rw [heq] at hc
        simp at hc
    · by_cases hagree : x ≠ "" ∧ y ≠ "" ∧ x.length = 6 ∧ y.length = 6 ∧ x = y
      · have heq : attemptCandidates (some x) (some y) = [x] := by
          simp only [attemptCandidates]; rw [if_pos hagree]
        rw [heq] at hc
        simp at hc
        subst hc
        exact hagree.2.2.1
      · have heq : attemptCandidates (some x) (some y) =
            (if x ≠ "" ∧ x.length = 6 then [x] else []) ++
            (if y ≠ "" ∧ y.length = 6 then [y] else []) := by
          simp only [attemptCandidates]; rw [if_neg hagree]
        rw [heq] at hc
        rcases List.mem_append.mp hc with hc1 | hc1
        · by_cases hx : x ≠ "" ∧ x.length = 6
          · rw [if_pos hx] at hc1
            simp at hc1
            subst hc1
            exact hx.2
          · rw [if_neg hx] at hc1
            simp at hc1
        · by_cases hy : y ≠ "" ∧ y.length = 6
          · rw [if_pos hy] at hc1
            simp at hc1
            subst hc1
            exact hy.2
          · rw [if_neg hy] at hc1
            simp at hc1
  · constructor
    · intro hE
      refine ⟨?_, ?_⟩
      · rintro x rfl hlen
        have hne : x ≠ "" := by
          intro hx; rw [hx] at hlen; simp at hlen
        rcases v with _ | y
        · have heq : attemptCandidates (some x) none = [x] := by
            simp only [attemptCandidates]; rw [if_pos ⟨hne, hlen⟩]
          rw [heq] at hE
          simp at hE
        · by_cases hagree : x ≠ "" ∧ y ≠ "" ∧ x.length = 6 ∧ y.length = 6 ∧ x = y
          · have heq : attemptCandidates (some x) (some y) = [x] := by
              simp only [attemptCandidates]; rw [if_pos hagree]
            rw [heq] at hE
            simp at hE
          · have heq : attemptCandidates (some x) (some y) =
                (if x ≠ "" ∧ x.length = 6 then [x] else []) ++
                (if y ≠ "" ∧ y.length = 6 then [y] else []) := by
              simp only [attemptCandidates]; rw [if_neg hagree]
            rw [heq] at hE
            rcases List.append_eq_nil.mp hE with ⟨hE1, _⟩
            rw [if_pos ⟨hne, hlen⟩] at hE1
            simp at hE1
      · rintro y rfl hlen
        have hne : y ≠ "" := by
          intro hy; rw [hy] at hlen; simp at hlen
        rcases a with _ | x
        · have heq : attemptCandidates none (some y) = [y] := by
            simp only [attemptCandidates]; rw [if_pos ⟨hne, hlen⟩]
          rw [heq] at hE
          simp at hE
        · by_cases hagree : x ≠ "" ∧ y ≠ "" ∧ x.length = 6 ∧ y.length = 6 ∧ x = y
          · have heq : attemptCandidates (some x) (some y) = [x] := by
              simp only [attemptCandidates]; rw [if_pos hagree]
            rw [heq] at hE
            simp at hE
          · have heq : attemptCandidates (some x) (some y) =
                (if x ≠ "" ∧ x.length = 6 then [x] else []) ++
                (if y ≠ "" ∧ y.length = 6 then [y] else []) := by
              simp only [attemptCandidates]; rw [if_neg hagree]
            rw [heq] at hE
            rcases List.append_eq_nil.mp hE with ⟨_, hE2⟩
            rw [if_pos ⟨hne, hlen⟩] at hE2
            simp at hE2
    · rintro ⟨ha, hv⟩
      rcases a with _ | x <;> rcases v with _ | y
      · rfl
      · have hY : ¬(y ≠ "" ∧ y.length = 6) := fun h => hv y rfl h.2
        simp only [attemptCandidates]
        rw [if_neg hY]
      · have hX : ¬(x ≠ "" ∧ x.length = 6) := fun h => ha x rfl h.2
        simp only [attemptCandidates]
        rw [if_neg hX]
      · have hA : ¬(x ≠ "" ∧ y ≠ "" ∧ x.length = 6 ∧ y.length = 6 ∧ x = y) :=
          fun h => ha x rfl h.2.2.1
        have hX : ¬(x ≠ "" ∧ x.length = 6) := fun h => ha x rfl h.2
        have hY : ¬(y ≠ "" ∧ y.length = 6) := fun h => hv y rfl h.2
        simp only [attemptCandidates]
        rw [if_neg hA, if_neg hX, if_neg hY]
        rfl
  · rintro env i ha hi hempty
    have hcands : attemptCands env i = [] := by
      rw [attemptCands, ha, hi]; exact hempty
    refine ⟨?_, ?_⟩
    · rw [attemptSucceeds, hcands]; rfl
    · rw [hcands]; rfl

/-- C1 witness: both modalities agreeing on "123456" yield the single
candidate list `["123456"]`. -/
theorem attemptCandidates_priority_witness :
    attemptCandidates (some "123456") (some "123456") = ["123456"] :=
  (attemptCandidates_priority (some "123456") (some "123456")).1 "123456" rfl rfl (by decide)

/-- C2: per-modality candidate selection (the shared tail of
`solve_audio_captcha` and `solve_image_captcha`): with length-6 candidates
present, the most frequent one wins, ties to the first seen; with none, the
candidate whose length is closest to 6 wins, ties to the first seen; an
empty candidate list yields no result. -/
theorem selectCandidate_policy (cs : List String) :
    (cs = [] → selectCandidate cs = none) ∧
    (cs.filter (fun c => c.length = 6) ≠ [] →
      ∃ b l1 l2,
        selectCandidate cs = some b ∧ b ∈ cs ∧ b.length = 6 ∧
        cs.filter (fun c => c.length = 6) = l1 ++ b :: l2 ∧
        (∀ x ∈ l1,
          (cs.filter (fun c => c.length = 6)).count x <
            (cs.filter (fun c => c.length = 6)).count b) ∧
        (∀ x ∈ l2,
          (cs.filter (fun c => c.length = 6)).count x ≤
            (cs.filter (fun c => c.length = 6)).count b)) ∧
    (cs ≠ [] → cs.filter (fun c => c.length = 6) = [] →
      ∃ b l1 l2,
        selectCandidate cs = some b ∧
        cs = l1 ++ b :: l2 ∧
        (∀ x ∈ l1, dist6 b < dist6 x) ∧
        (∀ x ∈ l2, dist6 b ≤ dist6 x)) := by
  refine ⟨?_, ?_, ?_⟩
  · rintro rfl
    rfl
  · intro hsix
    have hne : ¬((cs.filter (fun c => c.length = 6)).isEmpty = true) := by
      simpa [List.isEmpty_iff] using hsix
    obtain ⟨b, l1, l2, hf, hd, h1, h2⟩ :=
      firstMinBy_first
        (fun c => (0 : Int) - (((cs.filter (fun c => c.length = 6)).count c : Int)))
        (cs.filter (fun c => c.length = 6)) hsix
    have hbmem : b ∈ cs.filter (fun c => c.length = 6) := by
      rw [hd]; exact List.mem_append_right _ (List.mem_cons_self b l2)
    have hb := List.mem_filter.mp hbmem
    refine ⟨b, l1, l2, ?_, hb.1, by simpa using hb.2, hd, ?_, ?_⟩
    · have hsel : selectCandidate cs =
          firstMinBy
            (fun c => (0 : Int) - (((cs.filter (fun c => c.length = 6)).count c : Int)))
            (cs.filter (fun c => c.length = 6)) := by
        simp only [selectCandidate]
        rw [if_neg hne]
      rw [hsel]; exact hf
    · intro x hx
      have h := h1 x hx
      omega
    · intro x hx
      have h := h2 x hx
      omega
  · intro hcs hnil
    have hemp : (cs.filter (fun c => c.length = 6)).isEmpty = true := by
      simp [hnil]
    obtain ⟨b, l1, l2, hf, hd, h1, h2⟩ := firstMinBy_first dist6 cs hcs
    have hsel : selectCandidate cs = firstMinBy dist6 cs := by
      simp only [selectCandidate]
      rw [if_pos hemp]
    exact ⟨b, l1, l2, by rw [hsel]; exact hf, hd, h1, h2⟩

/-- C2 witness: on `["12345", "123456", "654321", "123456"]` the length-6
majority winner exists as the theorem describes. -/
theorem selectCandidate_policy_witness :
    (["12345", "123456", "654321", "123456"].filter (fun c => c.length = 6) ≠ []) ∧
    (∃ b l1 l2,
      selectCandidate ["12345", "123456", "654321", "123456"] = some b ∧
      b ∈ ["12345", "123456", "654321", "123456"] ∧ b.length = 6 ∧
      ["12345", "123456", "654321", "123456"].filter (fun c => c.length = 6) = l1 ++ b :: l2 ∧
      (∀ x ∈ l1,
        (["12345", "123456", "654321", "123456"].filter (fun c => c.length = 6)).count x <
          (["12345", "123456", "654321", "123456"].filter (fun c => c.length = 6)).count b) ∧
      (∀ x ∈ l2,
        (["12345", "123456", "654321", "123456"].filter (fun c => c.length = 6)).count x ≤
          (["12345", "123456", "654321", "123456"].filter (fun c => c.length = 6)).count b)) :=
  ⟨by decide,
   (selectCandidate_policy ["12345", "123456", "654321", "123456"]).2.1 (by decide)⟩

/-- C3: assuming every challenge fetch succeeds, `solve_and_verify` returns
true exactly when some attempt within the budget verifies a candidate; the
first successful attempt `i` (all earlier ones failing) is reached after
exactly `i + 1` challenge fetches and ends the loop; on failure the loop
performs exactly `MAX_CAPTCHA_RETRIES` (10) fetches, never more; and within
an attempt, submissions stop at the first accepted candidate. -/
theorem solve_and_verify_budget (env : SolveEnv) :
    (solve_and_verify env = true ↔
      ∃ i, i < MAX_CAPTCHA_RETRIES ∧ attemptSucceeds env i = true) ∧
    (solve_and_verify env = false → solveFetches env = MAX_CAPTCHA_RETRIES) ∧
    (∀ i, i < MAX_CAPTCHA_RETRIES → attemptSucceeds env i = true →
      (∀ j, j < i → attemptSucceeds env j = false) → solveFetches env = i + 1) ∧
    (solveFetches env ≤ MAX_CAPTCHA_RETRIES) ∧
    (∀ (i : Nat) (cs : List String),
      tryCands env i cs =
        (cs.any (env.verify i),
         if cs.any (env.verify i) then
           (cs.takeWhile (fun c => !env.verify i c)).length + 1
         else cs.length)) := by
  obtain ⟨ha, hb, hc, hd⟩ := solveLoop_spec env MAX_CAPTCHA_RETRIES 0
  refine ⟨?_, hb, ?_, hd, fun i cs => tryCands_eq env i cs⟩
  · simpa [solve_and_verify] using ha
  · intro i hi hsucc hmin
    exact hc i hi (by simpa using hsucc) (fun m hm => by simpa using hmin m hm)

/-- C3 witness: in `solveEnvA` attempt 0 yields no candidate and attempt 1
succeeds, so the loop succeeds after exactly two challenge fetches. -/
theorem solve_and_verify_budget_witness :
    solve_and_verify solveEnvA = true ∧ solveFetches solveEnvA = 2 :=
  ⟨(solve_and_verify_budget solveEnvA).1.mpr ⟨1, by decide, by decide⟩,
   (solve_and_verify_budget solveEnvA).2.2.1 1 (by decide) (by decide) (by decide)⟩

/-- C4: `search_causelist` yields an absent value exactly when the stripped
search-response body is empty, "No Record Found" or "NA"; any other body is
resolved to a document URL (the body itself when it starts with "http",
otherwise the base URL joined with the fixed prefix and the body minus its
leading slashes) whose fetched content is returned verbatim; captcha
exhaustion raises an error distinct from transport errors. -/
theorem search_causelist_resolution (env : SearchEnv) :
    (env.captchaOk = true →
      ((search_causelist env = Except.ok none) ↔
        (strTrim env.searchBody = "" ∨ strTrim env.searchBody = "No Record Found" ∨
         strTrim env.searchBody = "NA"))) ∧
    (env.captchaOk = true →
      ¬(strTrim env.searchBody = "" ∨ strTrim env.searchBody = "No Record Found" ∨
        strTrim env.searchBody = "NA") →
      ∀ content, env.fetch (resolveDocUrl (strTrim env.searchBody)) = Except.ok content →
        search_causelist env = Except.ok (some content)) ∧
    (env.captchaOk = false →
      search_causelist env = Except.error SearchError.captchaExhausted) ∧
    (SearchError.captchaExhausted ≠ SearchError.transport) ∧
    (∀ t : String, strStarts t "http" = true → resolveDocUrl t = t) ∧
    (∀ t : String, strStarts t "http" = false →
      resolveDocUrl t = BASE_URL ++ "/cishcraj-jp/" ++ stripSlashes t) ∧
    (resolveDocUrl "/causelist/output/123.html" =
      "https://hcraj.nic.in/cishcraj-jp/causelist/output/123.html") := by
  refine ⟨?_, ?_, ?_, by decide, ?_, ?_, by decide⟩
  · intro hok
    have hmain : search_causelist env =
        (if strTrim env.searchBody = "" ∨ strTrim env.searchBody = "No Record Found" ∨
            strTrim env.searchBody = "NA" then Except.ok none
         else
           match env.fetch (resolveDocUrl (strTrim env.searchBody)) with
           | Except.ok content => Except.ok (some content)
           | Except.error _ => Except.error SearchError.transport) := by
      simp only [search_causelist, hok]
      rw [if_neg (by simp)]
    rw [hmain]
    by_cases hsent : strTrim env.searchBody = "" ∨ strTrim env.searchBody = "No Record Found" ∨
        strTrim env.searchBody = "NA"
    · rw [if_pos hsent]
      simp [hsent]
    · rw [if_neg hsent]
      cases hfetch : env.fetch (resolveDocUrl (strTrim env.searchBody)) with
      | ok c => simp [hsent]
      | error e => simp [hsent]
  · intro hok hsent content hfetch
    have hmain : search_causelist env =
        (if strTrim env.searchBody = "" ∨ strTrim env.searchBody = "No Record Found" ∨
            strTrim env.searchBody = "NA" then Except.ok none
         else
           match env.fetch (resolveDocUrl (strTrim env.searchBody)) with
           | Except.ok content => Except.ok (some content)
           | Except.error _ => Except.error SearchError.transport) := by
      simp only [search_causelist, hok]
      rw [if_neg (by simp)]
    rw [hmain, if_neg hsent, hfetch]
  · intro hfail
    simp [search_causelist, hfail]
  · intro t ht
    simp only [resolveDocUrl]
    rw [if_pos ht]
  · intro t ht
    simp only [resolveDocUrl]
    rw [if_neg (by rw [ht]; exact Bool.false_ne_true)]

/-- C4 witness: in `searchEnvA` the body strips to a relative path, the URL
resolves under the fixed prefix, and the fetched document is returned. -/
theorem search_causelist_resolution_witness :
    search_causelist searchEnvA = Except.ok (some "DOC") :=
  (search_causelist_resolution searchEnvA).2.1 rfl (by decide) "DOC" rfl

/-- Each parser step either leaves the accumulated records unchanged or
appends exactly the data-row entry. -/
theorem parseStep_records (st : PState) (row : List Cell) :
    (parseStep st row).records = st.records ∨
    (parseStep st row).records = st.records ++ [mkEntry row st] := by
  simp only [parseStep]
  repeat' split
  all_goals first | exact Or.inl rfl | exact Or.inr rfl

/-- C7: the parser is a total fold over the rows; every single row adds at
most one entry and never disturbs the records accumulated before it, so no
row can abort the processing of the remaining rows. -/
theorem parse_to_records_total :
    (∀ rows, parse_to_records rows = (rows.foldl parseStep pInit).records) ∧
    (∀ (st : PState) (row : List Cell),
      ∃ t, (parseStep st row).records = st.records ++ t ∧ t.length ≤ 1) ∧
    (∀ (rows : List (List Cell)) (st : PState),
      ∃ t, (rows.foldl parseStep st).records = st.records ++ t) := by
  refine ⟨fun rows => rfl, ?_, ?_⟩
  · intro st row
    rcases parseStep_records st row with h | h
    · exact ⟨[], by simp [h], by simp⟩
    · exact ⟨[mkEntry row st], by simp [h], by simp⟩
  · intro rows
    induction rows with
    | nil =>
        intro st
        exact ⟨[], by simp⟩
    | cons r rest ih =>
        intro st
        obtain ⟨t1, ht1⟩ := ih (parseStep st r)
        rcases parseStep_records st r with h | h
        · exact ⟨t1, by rw [List.foldl_cons, ht1, h]⟩
        · refine ⟨[mkEntry r st] ++ t1, ?_⟩
          rw [List.foldl_cons, ht1, h, List.append_assoc]

/-- C5 (amended): a row that evades rules 1-5 and passes the data-row test
produces exactly one entry whose fields follow the source formulas:
`serial_no` is the first cell with the occurrences of "With" removed in one
left-to-right pass and trimmed, `case_type_no` is the second cell verbatim,
`title` joins the third cell's line-break parts with " Vs " after the first,
and `advocates` joins the remaining nonempty cells. -/
theorem parse_data_row (st : PState) (row : List Cell)
    (hfull : ¬(rowFull row = ""))
    (hpage : ¬(strContains (rowLower row) "page" = true ∧
      strContains (rowLower row) "of" = true))
    (hcourt : ¬(strContains (rowLower row) "court no" = true ∨
      strContains (rowLower row) "court room" = true))
    (hjudge : ¬(strContains (rowLower row) "hon\x27ble" = true ∨
      strContains (rowLower row) "justice" = true))
    (hcol : ¬(strContains (rowLower row) "s.no" = true ∨
      strContains (rowLower row) "sr.no" = true ∨
      strContains (rowLower row) "case type" = true ∨
      strContains (rowLower row) "name of advocate" = true))
    (hlen : 3 ≤ (rowTexts row).length)
    (hsno : ¬((rowTexts row).headD "" = "" ∨
      (firstCharDigit ((rowTexts row).headD "") = false ∧
       strContains (strLower ((rowTexts row).headD "")) "with" = false))) :
    parseStep st row = { st with records := st.records ++ [mkEntry row st] } ∧
    (mkEntry row st).serial_no = strTrim (strRemoveAll ((rowTexts row).headD "") "With") ∧
    (mkEntry row st).case_type_no = (rowTexts row).getD 1 "" ∧
    (mkEntry row st).title = _extract_title (row.getD 2 { text := "", rawParts := [] }) ∧
    (mkEntry row st).advocates =
      String.intercalate " | "
        (((row.drop 3).map (fun c => br_to_separator c ", ")).filter (fun p => p ≠ "")) ∧
    (mkEntry row st).court_no = st.court ∧
    (mkEntry row st).judge_name = st.judge ∧
    (mkEntry row st).category = st.category ∧
    (∀ c : Cell,
      _extract_title c =
        match cellParts c with
        | [] => ""
        | [p] => p
        | p :: rest => p ++ " Vs " ++ String.intercalate " " rest) ∧
    (∀ c : Cell, br_to_separator c ", " = String.intercalate ", " (cellParts c)) := by
  have hne : ¬(rowTexts row = []) := by
    intro h
    rw [h] at hlen
    simp at hlen
  refine ⟨?_, rfl, rfl, rfl, rfl, rfl, rfl, rfl, fun c => rfl, fun c => rfl⟩
  simp only [parseStep]
  rw [if_neg hne, if_neg ?hrule1, if_neg hcourt, if_neg hjudge, if_neg hcol,
    if_neg ?hrule5, if_pos hlen, if_neg hsno]
  case hrule1 =>
    intro h
    exact h.elim hfull hpage
  case hrule5 =>
    intro h
    have := h.1
    omega

/-- C5 witness: the spec's example row with continuation marker "With 1a"
yields one entry with `serial_no = "1a"`. -/
theorem parse_data_row_witness :
    parseStep pInit [⟨"With 1a", ["With 1a"]⟩, ⟨"X/1", ["X/1"]⟩, ⟨"Pet", ["Pet"]⟩] =
      { pInit with records :=
          pInit.records ++
            [mkEntry [⟨"With 1a", ["With 1a"]⟩, ⟨"X/1", ["X/1"]⟩, ⟨"Pet", ["Pet"]⟩] pInit] } ∧
    (mkEntry [⟨"With 1a", ["With 1a"]⟩, ⟨"X/1", ["X/1"]⟩, ⟨"Pet", ["Pet"]⟩] pInit).serial_no =
      "1a" :=
  ⟨(parse_data_row pInit [⟨"With 1a", ["With 1a"]⟩, ⟨"X/1", ["X/1"]⟩, ⟨"Pet", ["Pet"]⟩]
      (by decide) (by decide) (by decide) (by decide) (by decide) (by decide) (by decide)).1,
   by decide⟩

/-- C5 counterexample: a single removal pass over first cell "WiWithth"
leaves the serial number "With", so a produced `serial_no` can still contain
the literal continuation marker, contradicting the claimed invariant. -/
theorem parse_serial_keeps_with :
    (parse_to_records [[⟨"WiWithth", ["WiWithth"]⟩, ⟨"X", ["X"]⟩, ⟨"Y", ["Y"]⟩]]).map
        CaseEntry.serial_no = ["With"] ∧
    strContains "With" "With" = true := by
  exact ⟨by decide, by decide⟩

/-- C8 (amended): the catch-all reinterpretation as a category header
applies only to rows with at least 3 cells that fail the data-row first-cell
test: such a row with nonblank text and none of the skip keywords sets the
current category.  A digit-led row with at most 2 cells that matches none of
rules 1-6 is skipped without any state change. -/
theorem parse_fallthrough_category (st : PState) (row : List Cell)
    (hfull : ¬(rowFull row = ""))
    (hpage : ¬(strContains (rowLower row) "page" = true ∧
      strContains (rowLower row) "of" = true))
    (hcourt : ¬(strContains (rowLower row) "court no" = true ∨
      strContains (rowLower row) "court room" = true))
    (hjudge : ¬(strContains (rowLower row) "hon\x27ble" = true ∨
      strContains (rowLower row) "justice" = true))
    (hcol : ¬(strContains (rowLower row) "s.no" = true ∨
      strContains (rowLower row) "sr.no" = true ∨
      strContains (rowLower row) "case type" = true ∨
      strContains (rowLower row) "name of advocate" = true)) :
    (3 ≤ (rowTexts row).length →
      ((rowTexts row).headD "" = "" ∨
        (firstCharDigit ((rowTexts row).headD "") = false ∧
         strContains (strLower ((rowTexts row).headD "")) "with" = false)) →
      ¬(strContains (rowLower row) "high court" = true ∨
        strContains (rowLower row) "website" = true ∨
        strContains (rowLower row) "=" = true ∨
        strContains (rowLower row) "---" = true) →
      parseStep st row = { st with category := rowFull row }) ∧
    ((rowTexts row).length ≤ 2 →
      firstCharDigit ((rowTexts row).headD "") = true →
      parseStep st row = st) := by
  constructor
  · intro hlen hsno hskip
    have hne : ¬(rowTexts row = []) := by
      intro h
      rw [h] at hlen
      simp at hlen
    simp only [parseStep]
    rw [if_neg hne, if_neg ?hrule1, if_neg hcourt, if_neg hjudge, if_neg hcol,
      if_neg ?hrule5, if_pos hlen, if_pos hsno, if_pos ⟨hfull, hskip⟩]
    case hrule1 =>
      intro h
      exact h.elim hfull hpage
    case hrule5 =>
      intro h
      have := h.1
      omega
  · intro hlen2 hdig
    by_cases hne : rowTexts row = []
    · simp only [parseStep]
      rw [if_pos hne]
    · simp only [parseStep]
      rw [if_neg hne, if_neg ?hrule1b, if_neg hcourt, if_neg hjudge, if_neg hcol,
        if_neg ?hrule5b, if_neg ?hrule6b]
      case hrule1b =>
        intro h
        exact h.elim hfull hpage
      case hrule5b =>
        intro h
        rw [hdig] at h
        exact absurd h.2.2 (by simp)
      case hrule6b =>
        omega

/-- C8 witness: a 3-cell row whose first cell is non-digit text is
reinterpreted as the new category. -/
theorem parse_fallthrough_category_witness :
    parseStep { court := "", judge := "", category := "Old", records := [] }
        [⟨"abc", ["abc"]⟩, ⟨"d", ["d"]⟩, ⟨"e", ["e"]⟩] =
      { court := "", judge := "", category := "abc d e", records := [] } := by
  have h := (parse_fallthrough_category
    { court := "", judge := "", category := "Old", records := [] }
    [⟨"abc", ["abc"]⟩, ⟨"d", ["d"]⟩, ⟨"e", ["e"]⟩]
    (by decide) (by decide) (by decide) (by decide) (by decide)).1
    (by decide) (by decide) (by decide)
  rw [h]
  decide

/-- Inserting into the category dict appends the entry under its category,
leaving every other category untouched. -/
theorem catEntries_add (cats : List (String × List CaseEntry)) (c : String) (e : CaseEntry)
    (c' : String) :
    catEntries (addToCats cats c e) c' =
      catEntries cats c' ++ (if c = c' then [e] else []) := by
  induction cats with
  | nil =>
      by_cases h : c = c' <;> simp [addToCats, catEntries, h]
  | cons p rest ih =>
      obtain ⟨c0, l⟩ := p
      by_cases h0 : c0 = c
      · by_cases h1 : c = c'
        · simp [addToCats, catEntries, h0, h1]
        · have h2 : ¬(c0 = c') := fun h => h1 (h0.symm.trans h)
          simp [addToCats, catEntries, h0, h1, h2]
      · by_cases h1 : c0 = c'
        · have h2 : ¬(c = c') := fun h => h0 (h1.trans h.symm)
          have h3 : ¬(c' = c) := fun h => h2 h.symm
          simp [addToCats, catEntries, h0, h1, h2, h3]
        · simp [addToCats, catEntries, h0, h1, ih]

/-- Inserting into the category dict adds the category key at the end when
new, keeping the key order otherwise. -/
theorem addToCats_keys (cats : List (String × List CaseEntry)) (c : String) (e : CaseEntry) :
    (addToCats cats c e).map Prod.fst = insertNew (cats.map Prod.fst) c := by
  induction cats with
  | nil => simp [addToCats, insertNew]
  | cons p rest ih =>
      obtain ⟨c0, l⟩ := p
      by_cases h0 : c0 = c
      · subst h0
        simp [addToCats, insertNew]
      · by_cases hc : c ∈ rest.map Prod.fst
        · simp [addToCats, insertNew, h0, hc, ih, Ne.symm h0]
        · simp [addToCats, insertNew, h0, hc, ih, Ne.symm h0]

/-- Inserting one entry into the keyed section list appends it under its own
section key and category, leaving every other slot untouched. -/
theorem secEntries_add (secs : List (String × CourtSection)) (e : CaseEntry) (k c : String) :
    secEntries (addToSections secs e) k c =
      secEntries secs k c ++
        (if sectionKey e = k ∧ catName e = c then [e] else []) := by
  induction secs with
  | nil =>
      by_cases hk : sectionKey e = k
      · by_cases hc : catName e = c
        · simp [addToSections, secEntries, catEntries, hk, hc]
        · simp [addToSections, secEntries, catEntries, hk, hc]
      · simp [addToSections, secEntries, hk]
  | cons p rest ih =>
      obtain ⟨k0, s⟩ := p
      by_cases h0 : k0 = sectionKey e
      · by_cases h1 : sectionKey e = k
        · simp [addToSections, secEntries, h0, h1, catEntries_add]
        · simp [addToSections, secEntries, h0, h1]
      · by_cases h1 : k0 = k
        · have hke : ¬(sectionKey e = k) := fun h => h0 (h1.trans h.symm)
          have hek : ¬(k = sectionKey e) := fun h => hke h.symm
          simp [addToSections, secEntries, h0, h1, hke, hek]
        · simp [addToSections, secEntries, h0, h1, ih]

/-- Inserting one entry appends its section key when new, keeping key order
otherwise. -/
theorem addToSections_keys (secs : List (String × CourtSection)) (e : CaseEntry) :
    (addToSections secs e).map Prod.fst = insertNew (secs.map Prod.fst) (sectionKey e) := by
  induction secs with
  | nil => simp [addToSections, insertNew]
  | cons p rest ih =>
      obtain ⟨k0, s⟩ := p
      by_cases h0 : k0 = sectionKey e
      · simp [addToSections, insertNew, h0]
      · by_cases hc : sectionKey e ∈ rest.map Prod.fst
        · simp [addToSections, insertNew, h0, hc, ih, Ne.symm h0]
        · simp [addToSections, insertNew, h0, hc, ih, Ne.symm h0]

/-- Inserting one entry extends its own section's category-name list with
its category (when new), leaving other sections' lists untouched. -/
theorem secCats_add (secs : List (String × CourtSection)) (e : CaseEntry) (k : String) :
    secCats (addToSections secs e) k =
      if sectionKey e = k then insertNew (secCats secs k) (catName e)
      else secCats secs k := by
  induction secs with
  | nil =>
      by_cases hk : sectionKey e = k <;>
        simp [addToSections, secCats, insertNew, hk]
  | cons p rest ih =>
      obtain ⟨k0, s⟩ := p
      by_cases h0 : k0 = sectionKey e
      · by_cases h1 : sectionKey e = k
        · simp [addToSections, secCats, h0, h1, addToCats_keys]
        · simp [addToSections, secCats, h0, h1]
      · by_cases h1 : k0 = k
        · have hke : ¬(sectionKey e = k) := fun h => h0 (h1.trans h.symm)
          have hek : ¬(k = sectionKey e) := fun h => hke h.symm
          simp [addToSections, secCats, h0, h1, hke, hek]
        · simp [addToSections, secCats, h0, h1, ih]

/-- Inserting one entry creates its section's metadata from the entry only
when the key is new; existing metadata is never modified. -/
theorem secMeta_add (secs : List (String × CourtSection)) (e : CaseEntry) (k : String) :
    secMeta (addToSections secs e) k =
      match secMeta secs k with
      | some m => some m
      | none => if sectionKey e = k then some (e.court_no, e.judge_name) else none := by
  induction secs with
  | nil =>
      by_cases hk : sectionKey e = k <;>
        simp [addToSections, secMeta, hk]
  | cons p rest ih =>
      obtain ⟨k0, s⟩ := p
      by_cases h0 : k0 = sectionKey e
      · by_cases h1 : k0 = k
        · have hek : sectionKey e = k := h0.symm.trans h1
          simp [addToSections, secMeta, h0, h1, hek]
        · have hke : ¬(sectionKey e = k) := fun h => h1 (h0.trans h)
          cases hm : secMeta rest k <;>
            simp [addToSections, secMeta, h0, h1, hke, hm]
      · by_cases h1 : k0 = k
        · have hnk : ¬(k = sectionKey e) := fun h => h0 (h1.trans h)
          simp [addToSections, secMeta, h0, h1, hnk]
        · simp [addToSections, secMeta, h0, h1, ih]

/-- The grouping fold, key list: first-occurrence order of section keys. -/
theorem gbcAux_keys_from (records : List CaseEntry) :
    ∀ acc : List (String × CourtSection),
      (records.foldl addToSections acc).map Prod.fst =
        records.foldl (fun ks e => insertNew ks (sectionKey e)) (acc.map Prod.fst) := by
  induction records with
  | nil => intro acc; rfl
  | cons e rest ih =>
      intro acc
      rw [List.foldl_cons, List.foldl_cons, ih, addToSections_keys]

/-- The grouping fold, entry lists: the slot `(k, c)` collects exactly the
records with section key `k` and category name `c`, in input order. -/
theorem gbcAux_entries_from (records : List CaseEntry) :
    ∀ (acc : List (String × CourtSection)) (k c : String),
      secEntries (records.foldl addToSections acc) k c =
        secEntries acc k c ++
          records.filter (fun e => sectionKey e = k ∧ catName e = c) := by
  induction records with
  | nil =>
      intro acc k c
      simp
  | cons e rest ih =>
      intro acc k c
      rw [List.foldl_cons, ih, secEntries_add]
      by_cases h : sectionKey e = k ∧ catName e = c
      · simp [h, List.filter_cons, List.append_assoc]
      · simp [h, List.filter_cons]

/-- The grouping fold, category-name lists: first-occurrence order of the
category names of the records with section key `k`. -/
theorem gbcAux_cats_from (records : List CaseEntry) :
    ∀ (acc : List (String × CourtSection)) (k : String),
      secCats (records.foldl addToSections acc) k =
        (records.filter (fun e => sectionKey e = k)).foldl
          (fun cs e => insertNew cs (catName e)) (secCats acc k) := by
  induction records with
  | nil =>
      intro acc k
      simp
  | cons e rest ih =>
      intro acc k
      rw [List.foldl_cons, ih, secCats_add]
      by_cases h : sectionKey e = k
      · simp [h, List.filter_cons]
      · simp [h, List.filter_cons]

/-- The grouping fold, metadata: a section's `court_no` / `judge_name` come
from the first record with its key. -/
theorem gbcAux_meta_from (records : List CaseEntry) :
    ∀ (acc : List (String × CourtSection)) (k : String),
      secMeta (records.foldl addToSections acc) k =
        (match secMeta acc k with
         | some m => some m
         | none =>
             ((records.filter (fun e => sectionKey e = k)).head?).map
               (fun e => (e.court_no, e.judge_name))) := by
  induction records with
  | nil =>
      intro acc k
      cases hm : secMeta acc k <;> simp [hm]
  | cons e rest ih =>
      intro acc k
      rw [List.foldl_cons, ih, secMeta_add]
      cases hm : secMeta acc k with
      | some m => simp
      | none =>
          by_cases h : sectionKey e = k
          · simp [h, List.filter_cons]
          · simp [h, List.filter_cons]

/-- `insertNew` preserves distinctness of the key list. -/
theorem insertNew_nodup (acc : List String) (k : String) (h : acc.Nodup) :
    (insertNew acc k).Nodup := by
  by_cases hm : k ∈ acc
  · simpa [insertNew, hm] using h
  · rw [insertNew, if_neg hm]
    refine List.Nodup.append h (List.nodup_singleton k) ?_
    intro a ha hb
    rw [List.mem_singleton] at hb
    subst hb
    exact hm ha

/-- A fold of `insertNew` keeps the key list distinct. -/
theorem foldl_insertNew_nodup (ks : List String) :
    ∀ acc : List String, acc.Nodup → (ks.foldl insertNew acc).Nodup := by
  induction ks with
  | nil => intro acc h; exact h
  | cons k rest ih =>
      intro acc h
      exact ih (insertNew acc k) (insertNew_nodup acc k h)

/-- C8 counterexample: the nonblank, keyword-free row ["1", "foo"] matches
none of rules 1-6 yet does not become the category: the parser leaves the
state untouched, so the claimed catch-all does not apply to short
digit-led rows. -/
theorem parse_short_row_skipped :
    parseStep { court := "", judge := "", category := "Old", records := [] }
        [⟨"1", ["1"]⟩, ⟨"foo", ["foo"]⟩] =
      { court := "", judge := "", category := "Old", records := [] } ∧
    rowFull [⟨"1", ["1"]⟩, ⟨"foo", ["foo"]⟩] = "1 foo" ∧
    ("1 foo" : String) ≠ "Old" := by
  exact ⟨by decide, by decide, by decide⟩

/-- C6: `group_by_court` produces one section per distinct section key
(empty `court_no` keyed "Unknown"), keys in first-occurrence order and
distinct; the slot for key `k` and category `c` holds exactly the input
records with that key and category name, in input order — so every entry
lands in exactly the one slot given by its own key and category. -/
theorem group_by_court_spec (records : List CaseEntry) :
    (group_by_court records = (gbcAux records).map Prod.snd) ∧
    ((gbcAux records).map Prod.fst = firstOccs (records.map sectionKey)) ∧
    ((gbcAux records).map Prod.fst).Nodup ∧
    (∀ k c, secEntries (gbcAux records) k c =
      records.filter (fun e => sectionKey e = k ∧ catName e = c)) ∧
    (∀ k, secCats (gbcAux records) k =
      firstOccs ((records.filter (fun e => sectionKey e = k)).map catName)) ∧
    (∀ e, e ∈ records → e ∈ secEntries (gbcAux records) (sectionKey e) (catName e)) ∧
    (∀ e k c, e ∈ secEntries (gbcAux records) k c → sectionKey e = k ∧ catName e = c) := by
  have hkeys : (gbcAux records).map Prod.fst = firstOccs (records.map sectionKey) := by
    have h := gbcAux_keys_from records []
    rw [firstOccs, List.foldl_map]
    exact h
  have hent : ∀ k c, secEntries (gbcAux records) k c =
      records.filter (fun e => sectionKey e = k ∧ catName e = c) := by
    intro k c
    have h := gbcAux_entries_from records [] k c
    simpa [secEntries] using h
  refine ⟨rfl, hkeys, ?_, hent, ?_, ?_, ?_⟩
  · rw [hkeys, firstOccs]
    exact foldl_insertNew_nodup _ [] List.nodup_nil
  · intro k
    have h := gbcAux_cats_from records [] k
    rw [firstOccs, List.foldl_map]
    simpa [secCats] using h
  · intro e he
    rw [hent]
    exact List.mem_filter.mpr ⟨he, by simp⟩
  · intro e k c hmem
    rw [hent] at hmem
    have h := (List.mem_filter.mp hmem).2
    simpa using h

/-- C6 witness: on `[entryA, entryB]`, `entryB` (court "C1", category
"Cat") lands in the slot keyed "C1" / "Cat". -/
theorem group_by_court_spec_witness :
    entryB ∈ [entryA, entryB] ∧
    entryB ∈ secEntries (gbcAux [entryA, entryB]) "C1" "Cat" := by
  refine ⟨by decide, ?_⟩
  have h := (group_by_court_spec [entryA, entryB]).2.2.2.2.2.1 entryB (by decide)
  have hk : sectionKey entryB = "C1" := by decide
  have hc : catName entryB = "Cat" := by decide
  rw [hk, hc] at h
  exact h

/-- C10: a section's `court_no` and `judge_name` are those of the first
input record in its group — so the "Unknown"-keyed section keeps the raw
empty `court_no` of its first entry, and later entries with a different
`judge_name` do not change the section's metadata. -/
theorem group_by_court_meta (records : List CaseEntry) :
    (group_by_court records = (gbcAux records).map Prod.snd) ∧
    (∀ k, secMeta (gbcAux records) k =
      ((records.filter (fun e => sectionKey e = k)).head?).map
        (fun e => (e.court_no, e.judge_name))) := by
  refine ⟨rfl, ?_⟩
  intro k
  have h := gbcAux_meta_from records [] k
  simpa [secMeta] using h

/-- C9 (amended): an entry produced while no category header was active has
the raw empty category string (the "General" default is applied by
`group_by_court`, not by the parser); `group_by_court` files every entry
with an empty category under the category name "General" in its own
section, and places every entry with an empty `court_no` in the section
keyed "Unknown", each independently of the other field. -/
theorem category_default_general (st : PState) (row : List Cell) (records : List CaseEntry) :
    ((mkEntry row st).category = st.category) ∧
    (st.category = "" →
      ∀ e ∈ (parseStep st row).records, e ∈ st.records ∨ e.category = "") ∧
    (∀ e ∈ records, e.category = "" →
      e ∈ secEntries (gbcAux records) (sectionKey e) "General") ∧
    (∀ e ∈ records, e.court_no = "" →
      e ∈ secEntries (gbcAux records) "Unknown" (catName e)) := by
  refine ⟨rfl, ?_, ?_, ?_⟩
  · intro hcat e he
    rcases parseStep_records st row with h | h
    · rw [h] at he
      exact Or.inl he
    · rw [h] at he
      rcases List.mem_append.mp he with h1 | h1
      · exact Or.inl h1
      · right
        rw [List.mem_singleton] at h1
        subst h1
        exact hcat
  · intro e he hcat
    have hent := gbcAux_entries_from records [] (sectionKey e) "General"
    have heq : secEntries (gbcAux records) (sectionKey e) "General" =
        records.filter (fun x => sectionKey x = sectionKey e ∧ catName x = "General") := by
      simpa [secEntries] using hent
    rw [heq]
    refine List.mem_filter.mpr ⟨he, ?_⟩
    simp [catName, hcat]
  · intro e he hcourt
    have hent := gbcAux_entries_from records [] "Unknown" (catName e)
    have heq : secEntries (gbcAux records) "Unknown" (catName e) =
        records.filter (fun x => sectionKey x = "Unknown" ∧ catName x = catName e) := by
      simpa [secEntries] using hent
    rw [heq]
    refine List.mem_filter.mpr ⟨he, ?_⟩
    simp [sectionKey, hcourt]

/-- C9 witness: `entryA` (empty court, empty category) is filed under the
category name "General" in its own section, and placed in the section keyed
"Unknown". -/
theorem category_default_general_witness :
    entryA ∈ secEntries (gbcAux [entryA, entryB]) (sectionKey entryA) "General" ∧
    entryA ∈ secEntries (gbcAux [entryA, entryB]) "Unknown" (catName entryA) :=
  ⟨(category_default_general pInit [] [entryA, entryB]).2.2.1 entryA
      (by decide) (by decide),
   (category_default_general pInit [] [entryA, entryB]).2.2.2 entryA
      (by decide) (by decide)⟩

/-- C9 counterexample: a data row parsed with no active category yields a
`CaseEntry` whose `category` is the empty string, not "General". -/
theorem parse_category_not_general :
    (parse_to_records [[⟨"1", ["1"]⟩, ⟨"A", ["A"]⟩, ⟨"T", ["T"]⟩]]).map CaseEntry.category =
      [""] ∧
    ("" : String) ≠ "General" := by
  exact ⟨by decide, by decide⟩

end CauseList
